import Mathlib

/-!
Verification of the search-aggregation service (searchService.js, search routes,
rate-limiter middleware and database queries) against its specification.

Conventions of the embedding:
* JavaScript numbers used as relevance scores are embedded as rationals (`ℚ`);
  match counts, timestamps and limits are `ℕ`.
* JavaScript truthiness of an optional numeric field (`a.score`, `a.matches`)
  is embedded explicitly: the field is truthy iff it is present and nonzero.
* `Array.prototype.sort(comparator)` (stable since ES2019) is embedded as a
  stable insertion sort driven by the numeric comparator: an element is placed
  before the first already-sorted element with which the comparator returns a
  value `≤ 0`, so elements comparing equal keep their input order.
* Fallible source calls are embedded as `Except String (List SearchResult)`.
-/

namespace Srh

/-- A search result as produced by the three sources in `searchService.js`.
`content` is carried by local database records (used by deduplication),
`snippet` by web/file results, `score` only by fuzzy local results and
`matchCount` (the JS field `matches`, renamed because `matches` is a Lean
keyword) only by file-system results. Remaining metadata fields of the
source objects (`url`, `path`, `size`, `modified`, `source`) play no role in
deduplication or ranking and are omitted. -/
structure SearchResult where
  title : String
  content : Option String
  snippet : Option String
  score : Option ℚ
  matchCount : Option ℕ
deriving DecidableEq

/-- JS truthiness of an optional numeric score: present and nonzero. -/
def truthyQ : Option ℚ → Bool
  | some s => s != 0
  | none => false

/-- JS truthiness of an optional match count: present and nonzero. -/
def truthyN : Option ℕ → Bool
  | some n => n != 0
  | none => false

/-- The comparator of `searchAdvanced`'s final sort (searchService.js:223-227):
`if (a.score && b.score) return a.score - b.score;
 if (a.matches && b.matches) return b.matches - a.matches;
 return 0;`. -/
def cmpAdvanced (a b : SearchResult) : ℚ :=
  if truthyQ a.score && truthyQ b.score then a.score.getD 0 - b.score.getD 0
  else if truthyN a.matchCount && truthyN b.matchCount then
    (b.matchCount.getD 0 : ℚ) - (a.matchCount.getD 0 : ℚ)
  else 0

/-- Stable insertion of `x` into a sorted list, mirroring the placement a
stable JS `sort(cmp)` gives: `x` goes before the first element `y` with
`cmp x y ≤ 0`. -/
def insortQ (cmp : α → α → ℚ) (x : α) : List α → List α
  | [] => [x]
  | y :: ys => if cmp x y ≤ 0 then x :: y :: ys else y :: insortQ cmp x ys

/-- Stable comparator-driven sort (model of `Array.prototype.sort`). -/
def sortQ (cmp : α → α → ℚ) (l : List α) : List α :=
  l.foldr (insortQ cmp) []

/-! ## Aggregator (`searchAdvanced`, searchService.js:169-234) -/

/-- The duplicate test of `searchAdvanced`'s dedup step (searchService.js:212-215):
`existing.title === item.title ||
 (existing.content && item.content && existing.content === item.content)`.
JS truthiness of a string field means: present and non-empty. -/
def isDup (existing item : SearchResult) : Bool :=
  existing.title == item.title ||
    (match existing.content, item.content with
     | some c, some d => !(c == "") && !(d == "") && c == d
     | _, _ => false)

/-- The dedup loop of `searchAdvanced` (searchService.js:210-220): each item is
appended to the accumulator unless it duplicates an already-kept item. -/
def dedupAux : List SearchResult → List SearchResult → List SearchResult
  | acc, [] => acc
  | acc, x :: xs =>
    if acc.any (fun existing => isDup existing x) then dedupAux acc xs
    else dedupAux (acc ++ [x]) xs

def dedup (l : List SearchResult) : List SearchResult := dedupAux [] l

/-- The three source tags accepted by `searchAdvanced` (the JS strings
`'web'`, `'local'`, `'files'`; `local` is a Lean keyword, hence `localStore`). -/
inductive Source
  | web
  | localStore
  | files
deriving DecidableEq

/-- Per-source share of the limit, `Math.ceil(limit / sources.length)`
(searchService.js:178,185,192); only evaluated when a source is selected,
so `sources` is then nonempty. -/
def perSourceLimit (limit : ℕ) (sources : List Source) : ℕ :=
  if sources.length = 0 then 0 else (limit + sources.length - 1) / sources.length

/-- The `.catch(err => ({error: ..., results: []}))` recovery attached to each
source call (searchService.js:179,186,193): a failed source contributes the
empty list (the combine step pushes `result.results = []`). -/
def recover (x : Except String (List SearchResult)) : List SearchResult :=
  match x with
  | .ok r => r
  | .error _ => []

/-- `searchAdvanced(query, sources, options)` (searchService.js:169-234),
parametric in the behaviour of the three sources: `outcome s n` is what source
`s` returns (or the error it throws) when asked for at most `n` results.
Source calls are dispatched in the fixed order web, local, files; each failure
is recovered to zero results; the combined list is deduplicated, sorted with
`cmpAdvanced` and truncated to `limit`. The function returns `Except.ok`
unconditionally: every source promise carries its own `.catch`, and the
combine/dedup/sort steps cannot throw, so the outer `try/catch` never fires. -/
def searchAdvanced (outcome : Source → ℕ → Except String (List SearchResult))
    (sources : List Source) (limit : ℕ) : Except String (List SearchResult) :=
  let n := perSourceLimit limit sources
  let combined :=
    (if Source.web ∈ sources then recover (outcome .web n) else []) ++
      ((if Source.localStore ∈ sources then recover (outcome .localStore n) else []) ++
        (if Source.files ∈ sources then recover (outcome .files n) else []))
  Except.ok ((sortQ cmpAdvanced (dedup combined)).take limit)

/-! ## String containment (JS `String.prototype.includes`, SQL `LIKE '%q%'`) -/

/-- ASCII lower-casing of one character (the case folding relevant to
`toLowerCase()` comparisons of the ASCII queries involved, and to SQLite's
default ASCII-only case-insensitive `LIKE`). -/
def asciiLower (c : Char) : Char :=
  if 'A' ≤ c && c ≤ 'Z' then Char.ofNat (c.toNat + 32) else c

def lowerStr (s : String) : String := String.mk (s.toList.map asciiLower)

/-- `needle` occurs contiguously inside the character list. -/
def containsList (needle : List Char) : List Char → Bool
  | [] => needle.isEmpty
  | c :: rest => needle.isPrefixOf (c :: rest) || containsList needle rest

/-- JS `hay.includes(needle)` (case-sensitive). -/
def strContains (hay needle : String) : Bool :=
  containsList needle.toList hay.toList

/-- Case-insensitive containment: `hay.toLowerCase().includes(needle.toLowerCase())`,
also the model of SQLite `hay LIKE '%needle%'` (ASCII case-insensitive by default). -/
def containsCI (hay needle : String) : Bool :=
  strContains (lowerStr hay) (lowerStr needle)

/-! ## FileTextSearch ranking (`searchFiles`, searchService.js:154-161) -/

/-- The ranking relevance computed inside the sort comparator
(searchService.js:156-157): `a.matches + (a.title.toLowerCase()
.includes(query.toLowerCase()) ? 10 : 0)`. File results always carry a
numeric `matches`, embedded as `matchCount.getD 0`. -/
def fileRelevance (query : String) (a : SearchResult) : ℕ :=
  a.matchCount.getD 0 + (if containsCI a.title query then 10 else 0)

/-- The comparator `(a, b) => bRelevance - aRelevance` (descending). -/
def cmpFiles (query : String) (a b : SearchResult) : ℚ :=
  (fileRelevance query b : ℚ) - (fileRelevance query a : ℚ)

/-- The ranking step of `searchFiles`: `results.sort(...)` followed by
`results.slice(0, limit)` (searchService.js:155-161), applied to the
collected walk results. -/
def searchFilesRank (query : String) (limit : ℕ)
    (results : List SearchResult) : List SearchResult :=
  (sortQ (cmpFiles query) results).take limit

/-! ## RelevanceIndex (`searchLocal` fuzzy branch, searchService.js:55-71) -/

/-- Modelled from the spec: the Fuse.js engine (`new Fuse(...)` and
`fuse.search(query)`, an npm library whose code is not in the repository) is
abstracted by a scoring function `score : α → Option ℚ` giving each corpus
record its best-field approximate-match score (none when nothing matches);
per spec §4.1 only records with score ≤ threshold are included and output is
sorted ascending by score. -/
def scoredList (score : α → Option ℚ) (corpus : List α) : List (α × ℚ) :=
  corpus.filterMap fun r => (score r).map fun s => (r, s)

/-- Ascending comparator on scores (spec §4.1: output sorted ascending). -/
def cmpScore (a b : α × ℚ) : ℚ := a.2 - b.2

/-- The fuzzy branch of `searchLocal` (searchService.js:55-71): score the
corpus (Fuse.js, modelled from the spec via `score`), keep records whose
score is ≤ `threshold`, sort ascending by score, `slice(0, limit)`. -/
def searchLocalFuzzy (score : α → Option ℚ) (threshold : ℚ) (limit : ℕ)
    (corpus : List α) : List (α × ℚ) :=
  (sortQ cmpScore
    ((scoredList score corpus).filter fun x => decide (x.2 ≤ threshold))).take limit

/-! ## Database fuzzy search (`searchDataInDB`, queries.js:115-165) and the
suggestions pipeline -/

/-- A stored record as seen by the SQL in queries.js: `tags` is the
serialized JSON text the `LIKE` patterns run over; `updatedAt` orders the
`ORDER BY updated_at DESC` tie-break. -/
structure DBRecord where
  title : String
  content : String
  tags : String
  updatedAt : ℕ
deriving DecidableEq

/-- The `WHERE (title LIKE ? OR content LIKE ? OR tags LIKE ?)` filter with
pattern `%query%` (queries.js:131). -/
def fuzzyWhere (q : String) (r : DBRecord) : Bool :=
  containsCI r.title q || containsCI r.content q || containsCI r.tags q

/-- The `CASE WHEN title LIKE ? THEN 3 WHEN content LIKE ? THEN 2 WHEN tags
LIKE ? THEN 1 ELSE 0 END` relevance (queries.js:124-129). -/
def relevanceScore (q : String) (r : DBRecord) : ℕ :=
  if containsCI r.title q then 3
  else if containsCI r.content q then 2
  else if containsCI r.tags q then 1
  else 0

/-- `ORDER BY relevance_score DESC, updated_at DESC` as a comparator. -/
def cmpDB (q : String) (a b : DBRecord) : ℚ :=
  if relevanceScore q a = relevanceScore q b then
    (b.updatedAt : ℚ) - (a.updatedAt : ℚ)
  else (relevanceScore q b : ℚ) - (relevanceScore q a : ℚ)

/-- The fuzzy branch of `searchDataInDB` (queries.js:120-143): filter,
order by relevance then recency, `LIMIT limit`. -/
def searchDataInDB (q : String) (limit : ℕ) (db : List DBRecord) : List DBRecord :=
  (sortQ (cmpDB q) (db.filter (fuzzyWhere q))).take limit

/-- The `suggestionsOnly` branch of `searchLocal` (searchService.js:49-53):
`searchDataInDB(query, {limit: 5, fuzzy: true})` then `.map(item => item.title)`. -/
def suggestionsOnlySearch (q : String) (db : List DBRecord) : List String :=
  (searchDataInDB q 5 db).map fun r => r.title

/-- The `GET /search/suggestions` handler (routes, part_004:97-119): a missing
`q` or one shorter than 2 characters returns `[]` before the local source is
consulted; otherwise the query is forwarded to the local source (here the
abstract `searchLocalFn`, standing for `searchLocal(q, {limit: 5, fuzzy: true,
suggestionsOnly: true})`). -/
def suggestionsRoute (searchLocalFn : String → List String)
    (q : Option String) : List String :=
  match q with
  | none => []
  | some s => if s.length < 2 then [] else searchLocalFn s

/-! ## TieredRateLimiter (middleware part_005; `consume` semantics of the
`rate-limiter-flexible` npm library modelled from spec §4.5) -/

/-- A tier's fixed configuration: `points` (capacity), `duration` (window,
seconds), `blockDuration` (seconds), as passed to the library constructors. -/
structure TierConfig where
  points : ℕ
  duration : ℕ
  blockDuration : ℕ
deriving DecidableEq

/-- part_005:15-20 — `{points: 100, duration: 60, blockDuration: 60}`. -/
def apiRateLimiter : TierConfig := ⟨100, 60, 60⟩

/-- part_005:31-36 — `{points: 30, duration: 60, blockDuration: 120}`. -/
def searchRateLimiter : TierConfig := ⟨30, 60, 120⟩

/-- part_005:47-52 — `{points: 10, duration: 60, blockDuration: 300}`. -/
def dataModificationRateLimiter : TierConfig := ⟨10, 60, 300⟩

/-- part_005:63-68 — `{points: 3, duration: 3600, blockDuration: 3600}`. -/
def importRateLimiter : TierConfig := ⟨3, 3600, 3600⟩

/-- The four operation classes (spec §4.5; `import` is a Lean keyword, hence
`dataImport`). -/
inductive Tier
  | api
  | search
  | dataModification
  | dataImport
deriving DecidableEq

def tierConfig : Tier → TierConfig
  | .api => apiRateLimiter
  | .search => searchRateLimiter
  | .dataModification => dataModificationRateLimiter
  | .dataImport => importRateLimiter

/-- Per-(tier, key) counter state (spec §3 RateLimitCounter). -/
structure LimState where
  consumed : ℕ
  windowStart : ℕ
  blockedUntil : Option ℕ
deriving DecidableEq

/-- Outcome of one `Consume` (spec §4.5 contract). -/
inductive ConsumeResult
  | allowed (remaining : ℕ)
  | rejected (retryAfter : ℕ)
deriving DecidableEq

/-- Modelled from the spec (§4.5, third bullet): the unblocked path of
`Consume` — increment `consumed`; allow with `remaining = capacity - consumed`
while within capacity, otherwise set `blockedUntil = now + blockDuration` and
reject with `retryAfter = blockDuration`. -/
def consumeOpen (cfg : TierConfig) (now : ℕ) (s : LimState) :
    ConsumeResult × LimState :=
  let c := s.consumed + 1
  if c ≤ cfg.points then
    (.allowed (cfg.points - c), ⟨c, s.windowStart, s.blockedUntil⟩)
  else
    (.rejected cfg.blockDuration, ⟨c, s.windowStart, some (now + cfg.blockDuration)⟩)

/-- Modelled from the spec: `Consume(tier, key)` of the TieredRateLimiter
(spec §4.5; the `rate-limiter-flexible` library implementing it is an npm
dependency, not part of the repository). The counter is created lazily on
first use; if the window has elapsed the counter is reset first; a live
`blockedUntil` rejects with `retryAfter = blockedUntil - now`; otherwise
consumption proceeds. Times are in seconds. -/
def consume (cfg : TierConfig) (now : ℕ) (st : Option LimState) :
    ConsumeResult × LimState :=
  let s0 := st.getD ⟨0, now, none⟩
  let s1 := if s0.windowStart + cfg.duration ≤ now then
      (⟨0, now, s0.blockedUntil⟩ : LimState)
    else s0
  match s1.blockedUntil with
  | some b => if now < b then (.rejected (b - now), s1) else consumeOpen cfg now s1
  | none => consumeOpen cfg now s1

/-- Sequential `Consume` calls at the given times against one key. -/
def consumeMany (cfg : TierConfig) (st : Option LimState) :
    List ℕ → List ConsumeResult × Option LimState
  | [] => ([], st)
  | t :: ts =>
    let r := consume cfg t st
    let rest := consumeMany cfg (some r.2) ts
    (r.1 :: rest.1, rest.2)

/-! ## Auxiliary decidable predicates used to state claims -/

/-- An entry carrying a score (in the sense of the spec's ranking-order
sentence). -/
def scoredEntry (r : SearchResult) : Bool := r.score.isSome

/-- An entry carrying only a match count. -/
def countOnlyEntry (r : SearchResult) : Bool := r.score.isNone && r.matchCount.isSome

/-- The ordering the spec asserts for a pair `(a, b)` with `a` before `b` in
the final list: scored pairs ascending by score, count-only pairs descending
by count, and never a count-only entry before a scored one. -/
def specPairOk (a b : SearchResult) : Bool :=
  (!(scoredEntry a && scoredEntry b) || decide (a.score.getD 0 ≤ b.score.getD 0)) &&
    ((!(countOnlyEntry a && countOnlyEntry b)) ||
      decide (b.matchCount.getD 0 ≤ a.matchCount.getD 0)) &&
    (!(countOnlyEntry a && scoredEntry b))

/-- The spec's claimed ordering, as a property of a whole result list. -/
def specOrdered : List SearchResult → Bool
  | [] => true
  | a :: rest => rest.all (specPairOk a) && specOrdered rest

/-- The expected prefix of results for `n` consecutive in-window allowed
consumptions starting from `consumed = k`: the `i`-th carries
`remaining = points - (k + i + 1)`. -/
def allowedRun (cfg : TierConfig) (k n : ℕ) : List ConsumeResult :=
  (List.range n).map fun i => ConsumeResult.allowed (cfg.points - (k + i + 1))

/-! ## Generic lemmas about the stable comparator sort -/

theorem sortQ_nil (cmp : α → α → ℚ) : sortQ cmp [] = [] := rfl

theorem sortQ_cons (cmp : α → α → ℚ) (x : α) (l : List α) :
    sortQ cmp (x :: l) = insortQ cmp x (sortQ cmp l) := rfl

theorem mem_insortQ (cmp : α → α → ℚ) (x : α) (l : List α) (z : α) :
    z ∈ insortQ cmp x l ↔ z = x ∨ z ∈ l := by
  induction l with
  | nil => simp [insortQ]
  | cons y ys ih =>
    by_cases h : cmp x y ≤ 0 <;> simp [insortQ, h, ih] <;> tauto

theorem mem_sortQ (cmp : α → α → ℚ) (l : List α) (z : α) :
    z ∈ sortQ cmp l ↔ z ∈ l := by
  induction l with
  | nil => simp [sortQ]
  | cons y ys ih =>
    rw [sortQ_cons, mem_insortQ, ih, List.mem_cons]

/-- Inserting `x` into `X ++ B` never enters `B` when `x` compares `≤ 0`
with every element of `B`. -/
theorem insortQ_append_of_le (cmp : α → α → ℚ) (x : α) (X B : List α)
    (hB : ∀ y ∈ B, cmp x y ≤ 0) :
    insortQ cmp x (X ++ B) = insortQ cmp x X ++ B := by
  induction X with
  | nil =>
    cases B with
    | nil => simp [insortQ]
    | cons b bs => simp [insortQ, hB b (by simp)]
  | cons y ys ih =>
    by_cases h : cmp x y ≤ 0 <;> simp [insortQ, h, ih]

/-- Inserting `x` into `X ++ a :: V` stops no later than at the pivot `a`
whenever `cmp x a ≤ 0`: the suffix `a :: V` is left untouched. -/
theorem insortQ_append_pivot (cmp : α → α → ℚ) (x a : α) (X V : List α)
    (ha : cmp x a ≤ 0) :
    insortQ cmp x (X ++ a :: V) = insortQ cmp x X ++ a :: V := by
  induction X with
  | nil => simp [insortQ, ha]
  | cons y ys ih =>
    by_cases h : cmp x y ≤ 0 <;> simp [insortQ, h, ih]

/-- Inserting `x` into `X ++ C` skips all of `X` when `x` compares `> 0`
with every element of `X`. -/
theorem insortQ_append_of_gt (cmp : α → α → ℚ) (x : α) (X C : List α)
    (hX : ∀ y ∈ X, ¬ cmp x y ≤ 0) :
    insortQ cmp x (X ++ C) = X ++ insortQ cmp x C := by
  induction X with
  | nil => simp
  | cons y ys ih =>
    have hy := hX y (by simp)
    have hys : ∀ z ∈ ys, ¬ cmp x z ≤ 0 := fun z hz => hX z (by simp [hz])
    simp [insortQ, hy, ih hys]

/-- When `x` compares `≤ 0` with every element of `l`, it is placed first. -/
theorem insortQ_eq_cons (cmp : α → α → ℚ) (x : α) (l : List α)
    (h : ∀ y ∈ l, cmp x y ≤ 0) : insortQ cmp x l = x :: l := by
  cases l with
  | nil => rfl
  | cons y ys => simp [insortQ, h y (by simp)]

/-- Stability around a pivot `a`: if every element left of `a` compares
`≤ 0` with `a` and `a` compares `≤ 0` with every element to its right, the
stable sort keeps `a` between the (independently sorted) halves. -/
theorem sortQ_split (cmp : α → α → ℚ) (a : α) (u v : List α)
    (hu : ∀ x ∈ u, cmp x a ≤ 0) (hv : ∀ y ∈ v, cmp a y ≤ 0) :
    sortQ cmp (u ++ a :: v) = sortQ cmp u ++ a :: sortQ cmp v := by
  induction u with
  | nil =>
    rw [List.nil_append, sortQ_cons, sortQ_nil, List.nil_append]
    exact insortQ_eq_cons cmp a _ fun y hy =>
      hv y ((mem_sortQ cmp v y).mp hy)
  | cons x xs ih =>
    rw [List.cons_append, sortQ_cons, sortQ_cons,
      ih (fun z hz => hu z (by simp [hz])),
      insortQ_append_pivot cmp x a _ _ (hu x (by simp))]

/-- Class preservation: if every element of `u` compares `≤ 0` with every
element of `v`, the stable sort sorts the two blocks independently. -/
theorem sortQ_append_classes (cmp : α → α → ℚ) (u v : List α)
    (h : ∀ x ∈ u, ∀ y ∈ v, cmp x y ≤ 0) :
    sortQ cmp (u ++ v) = sortQ cmp u ++ sortQ cmp v := by
  induction u with
  | nil => simp [sortQ]
  | cons x xs ih =>
    rw [List.cons_append, sortQ_cons, sortQ_cons,
      ih (fun z hz => h z (by simp [hz])),
      insortQ_append_of_le cmp x _ _
        (fun y hy => h x (by simp) y ((mem_sortQ cmp v y).mp hy))]

theorem pairwise_insortQ (cmp : α → α → ℚ)
    (htot : ∀ a b, cmp a b ≤ 0 ∨ cmp b a ≤ 0)
    (htrans : ∀ a b c, cmp a b ≤ 0 → cmp b c ≤ 0 → cmp a c ≤ 0)
    (x : α) (l : List α) (hl : l.Pairwise (fun a b => cmp a b ≤ 0)) :
    (insortQ cmp x l).Pairwise (fun a b => cmp a b ≤ 0) := by
  induction l with
  | nil => simp [insortQ]
  | cons y ys ih =>
    rcases List.pairwise_cons.mp hl with ⟨hy, hys⟩
    by_cases h : cmp x y ≤ 0
    · simp only [insortQ, if_pos h]
      refine List.pairwise_cons.mpr ⟨?_, hl⟩
      intro z hz
      rcases List.mem_cons.mp hz with rfl | hz
      · exact h
      · exact htrans x y z h (hy z hz)
    · simp only [insortQ, if_neg h]
      refine List.pairwise_cons.mpr ⟨?_, ih hys⟩
      intro z hz
      rcases (mem_insortQ cmp x ys z).mp hz with rfl | hz
      · rcases htot y z with h' | h'
        · exact h'
        · exact absurd h' h
      · exact hy z hz

/-- A comparator that is total and transitive on its nonpositive part sorts
every list into `Pairwise (cmp · · ≤ 0)` order. -/
theorem pairwise_sortQ (cmp : α → α → ℚ)
    (htot : ∀ a b, cmp a b ≤ 0 ∨ cmp b a ≤ 0)
    (htrans : ∀ a b c, cmp a b ≤ 0 → cmp b c ≤ 0 → cmp a c ≤ 0)
    (l : List α) : (sortQ cmp l).Pairwise (fun a b => cmp a b ≤ 0) := by
  induction l with
  | nil => simp [sortQ]
  | cons y ys ih =>
    rw [sortQ_cons]
    exact pairwise_insortQ cmp htot htrans y _ ih

/-! ## Claim C2 — all sources failing yields an empty, non-errored result -/

/-- Claim C2: if every requested source of an aggregated search fails,
`searchAdvanced` returns an empty result list (`Except.ok []`) rather than
raising an error. -/
theorem searchAdvanced_all_fail_empty
    (outcome : Source → ℕ → Except String (List SearchResult))
    (sources : List Source) (limit : ℕ)
    (h : ∀ s ∈ sources, ∀ n, ∃ e, outcome s n = .error e) :
    searchAdvanced outcome sources limit = .ok [] := by
  have key : ∀ (s : Source) (n : ℕ),
      (if s ∈ sources then recover (outcome s n) else []) = [] := by
    intro s n
    by_cases hs : s ∈ sources
    · obtain ⟨e, he⟩ := h s hs n
      simp [hs, recover, he]
    · simp [hs]
  simp [searchAdvanced, key, dedup, dedupAux, sortQ]

/-- Witness for C2: the web source configured to always fail and
`sources = [web]` returns the empty list. -/
theorem searchAdvanced_all_fail_empty_witness :
    searchAdvanced (fun _ _ => .error "Web-Suche nicht verfügbar")
      [Source.web] 10 = .ok [] :=
  searchAdvanced_all_fail_empty _ _ _ fun _ _ _ =>
    ⟨"Web-Suche nicht verfügbar", rfl⟩

/-! ## Claim C4 — empty source set does NOT raise (claim corrected) -/

/-- Claim C4, counterexample: with no sources selected, `searchAdvanced`
does not propagate a hard error — it returns the successful empty list,
so the claimed error propagation is false at this input. -/
theorem searchAdvanced_empty_sources_counterexample :
    searchAdvanced (fun _ _ => .error "keine Quelle") [] 50 = .ok [] ∧
      ∀ e, searchAdvanced (fun _ _ => .error "keine Quelle") [] 50 ≠ .error e := by
  constructor
  · rfl
  · intro e h
    rw [show searchAdvanced (fun _ _ => Except.error "keine Quelle") [] 50 =
        Except.ok [] from rfl] at h
    exact Except.noConfusion h

/-- Claim C4 (amended): calling `searchAdvanced` with an empty sources set is
recovered into a normal result — it returns `Except.ok []` for every source
behaviour and limit, and never an error. -/
theorem searchAdvanced_empty_sources_ok
    (outcome : Source → ℕ → Except String (List SearchResult)) (limit : ℕ) :
    searchAdvanced outcome [] limit = .ok [] := by
  simp [searchAdvanced, dedup, dedupAux, sortQ]

/-! ## Claim C8 — suggestions endpoint short-query guard -/

/-- Claim C8: a missing query or one shorter than 2 characters yields an
empty suggestions list without invoking any source (the result does not
depend on the local source function at all), while a query of length ≥ 2 is
forwarded to the local source. -/
theorem suggestionsRoute_short_query
    (f g : String → List String) (s : String) :
    suggestionsRoute f none = [] ∧
      (s.length < 2 → suggestionsRoute f (some s) = [] ∧
        suggestionsRoute f (some s) = suggestionsRoute g (some s)) ∧
      (2 ≤ s.length → suggestionsRoute f (some s) = f s) := by
  refine ⟨rfl, ?_, ?_⟩
  · intro h
    simp [suggestionsRoute, h]
  · intro h
    simp [suggestionsRoute, Nat.not_lt.mpr h]

/-- Witness for C8 at the one-character query `"a"` and the valid query
`"ab"`. -/
theorem suggestionsRoute_short_query_witness :
    suggestionsRoute (fun _ => ["x"]) (some "a") = [] ∧
      suggestionsRoute (fun q => [q]) (some "ab") = ["ab"] :=
  ⟨((suggestionsRoute_short_query (fun _ => ["x"]) (fun _ => ["y"]) "a").2.1
      (by decide)).1,
    (suggestionsRoute_short_query (fun q => [q]) (fun q => [q]) "ab").2.2
      (by decide)⟩

/-! ## Claim C5 — deduplication correctness -/

theorem pairwise_titles_dedupAux (acc l : List SearchResult)
    (hacc : acc.Pairwise fun a b => a.title ≠ b.title) :
    (dedupAux acc l).Pairwise fun a b => a.title ≠ b.title := by
  induction l generalizing acc with
  | nil => exact hacc
  | cons x xs ih =>
    unfold dedupAux
    by_cases h : acc.any fun existing => isDup existing x
    · rw [if_pos h]
      exact ih acc hacc
    · rw [if_neg h]
      apply ih
      rw [List.pairwise_append]
      refine ⟨hacc, List.pairwise_singleton _ _, ?_⟩
      intro a ha b hb
      rw [List.mem_singleton] at hb
      subst hb
      intro hteq
      apply h
      refine List.any_eq_true.mpr ⟨a, ha, ?_⟩
      simp [isDup, hteq]

/-- Claim C5: (i) after the dedup step no two kept entries share a title —
any two inputs with identical titles collapse to at most one output entry;
(ii) two results whose (non-empty) content bodies are equal are considered
duplicates; (iii) two results with differing titles and differing content are
never considered duplicates. -/
theorem dedup_correct :
    (∀ l : List SearchResult, (dedup l).Pairwise fun a b => a.title ≠ b.title) ∧
      (∀ (a b : SearchResult) (c : String), a.content = some c →
        b.content = some c → c ≠ "" → isDup a b = true) ∧
      (∀ a b : SearchResult, a.title ≠ b.title → a.content ≠ b.content →
        isDup a b = false) := by
  refine ⟨fun l => pairwise_titles_dedupAux [] l List.Pairwise.nil, ?_, ?_⟩
  · intro a b c ha hb hc
    have h1 : (c == "") = false := beq_eq_false_iff_ne.mpr hc
    simp [isDup, ha, hb, h1]
  · intro a b hti hco
    have ht : (a.title == b.title) = false := beq_eq_false_iff_ne.mpr hti
    unfold isDup
    rw [ht, Bool.false_or]
    cases hac : a.content with
    | none => rfl
    | some x =>
      cases hbc : b.content with
      | none => rfl
      | some y =>
        have hxy : x ≠ y := by
          intro hxyeq
          apply hco
          rw [hac, hbc, hxyeq]
        have hxy' : (x == y) = false := beq_eq_false_iff_ne.mpr hxy
        simp [hxy']

/-- Witness for C5: two same-titled entries from different sources collapse;
equal non-empty bodies are duplicates; differing titles plus differing
bodies are not. -/
theorem dedup_correct_witness :
    (dedup [⟨"t", none, none, none, some 1⟩, ⟨"t", none, none, some 1, none⟩]).Pairwise
        (fun a b => a.title ≠ b.title) ∧
      isDup ⟨"x", some "body", none, none, none⟩ ⟨"y", some "body", none, none, none⟩ = true ∧
      isDup ⟨"x", some "p", none, none, none⟩ ⟨"y", some "q", none, none, none⟩ = false :=
  ⟨dedup_correct.1 _,
    dedup_correct.2.1 _ _ "body" rfl rfl (by decide),
    dedup_correct.2.2 _ _ (by decide) (by decide)⟩

/-! ## Claim C7 — file-search ranking -/

/-- Claim C7: the ranked file list is sorted descending by the relevance
value, and that relevance is exactly `matchCount + (10 if the filename
contains the query case-insensitively else 0)`. -/
theorem searchFilesRank_sorted (query : String) (limit : ℕ)
    (results : List SearchResult) :
    (searchFilesRank query limit results).Pairwise
        (fun a b => fileRelevance query b ≤ fileRelevance query a) ∧
      ∀ r : SearchResult, fileRelevance query r =
        r.matchCount.getD 0 + (if containsCI r.title query then 10 else 0) := by
  constructor
  · have htot : ∀ a b, cmpFiles query a b ≤ 0 ∨ cmpFiles query b a ≤ 0 := by
      intro a b
      unfold cmpFiles
      rcases le_total (fileRelevance query b : ℚ) (fileRelevance query a) with h | h
      · left
        linarith
      · right
        linarith
    have htrans : ∀ a b c, cmpFiles query a b ≤ 0 → cmpFiles query b c ≤ 0 →
        cmpFiles query a c ≤ 0 := by
      intro a b c h1 h2
      unfold cmpFiles at h1 h2 ⊢
      linarith
    have hs := pairwise_sortQ (cmpFiles query) htot htrans results
    have hsub : List.Sublist (searchFilesRank query limit results)
        (sortQ (cmpFiles query) results) := List.take_sublist _ _
    refine (List.Pairwise.sublist hsub hs).imp ?_
    intro a b h
    unfold cmpFiles at h
    exact_mod_cast sub_nonpos.mp h
  · intro r
    rfl

/-- Witness for C7: a concrete ranking run (name-only match outranks a
content match here). -/
theorem searchFilesRank_sorted_witness :
    (searchFilesRank "q" 10
        [⟨"a.txt", none, some "", none, some 2⟩,
          ⟨"q.txt", none, some "", none, some 3⟩]).Pairwise
      (fun a b => fileRelevance "q" b ≤ fileRelevance "q" a) :=
  (searchFilesRank_sorted "q" 10 _).1

/-! ## Claim C9 — a score of exactly 0 is never ordered by the comparator -/

/-- Claim C9: a result whose score is exactly 0 (and which, like every
scored local result, carries no match count) compares as equal — in both
directions — against every other result, and therefore keeps its pre-sort
position relative to all of them: the stable sort leaves it exactly between
the elements that preceded and followed it. -/
theorem cmpAdvanced_zero_score_inert (a : SearchResult)
    (hs : a.score = some 0) (hm : a.matchCount = none) :
    (∀ b, cmpAdvanced a b = 0 ∧ cmpAdvanced b a = 0) ∧
      ∀ u v : List SearchResult,
        sortQ cmpAdvanced (u ++ a :: v) =
          sortQ cmpAdvanced u ++ a :: sortQ cmpAdvanced v := by
  have key : ∀ b, cmpAdvanced a b = 0 ∧ cmpAdvanced b a = 0 := by
    intro b
    constructor
    · unfold cmpAdvanced
      rw [hs, hm]
      simp [truthyQ, truthyN]
    · unfold cmpAdvanced
      rw [hs, hm]
      simp [truthyQ, truthyN]
  refine ⟨key, ?_⟩
  intro u v
  exact sortQ_split _ a u v (fun x _ => le_of_eq (key x).2)
    (fun y _ => le_of_eq (key y).1)

/-- Witness for C9: the score-0 entry stays put between two count-carrying
entries it would otherwise be compared against. -/
theorem cmpAdvanced_zero_score_inert_witness :
    cmpAdvanced ⟨"perfekt", none, none, some 0, none⟩
        ⟨"f", none, none, none, some 5⟩ = 0 ∧
      sortQ cmpAdvanced
          [⟨"f", none, none, none, some 5⟩,
            ⟨"perfekt", none, none, some 0, none⟩,
            ⟨"g", none, none, none, some 3⟩] =
        [⟨"f", none, none, none, some 5⟩,
          ⟨"perfekt", none, none, some 0, none⟩,
          ⟨"g", none, none, none, some 3⟩] := by
  have h := cmpAdvanced_zero_score_inert
    ⟨"perfekt", none, none, some 0, none⟩ rfl rfl
  exact ⟨(h.1 _).1,
    h.2 [⟨"f", none, none, none, some 5⟩] [⟨"g", none, none, none, some 3⟩]⟩

/-! ## Claim C1 — the merged sort's ordering (claim corrected) -/

/-- Claim C1, counterexample: a realizable `searchAdvanced` run (one file
whose name matches the query but has 0 content matches, ranked by
`searchFiles` above a file with 3 content matches) whose final list violates
the claimed ordering: the two count-carrying entries are not in descending
count order, because the comparator ignores a zero (falsy) match count. -/
theorem searchAdvanced_order_counterexample :
    searchAdvanced
        (fun s _ => match s with
          | .files => .ok [⟨"q.txt", none, some "", none, some 0⟩,
              ⟨"b.txt", none, some "q q q", none, some 3⟩]
          | _ => .ok [])
        [Source.files] 50 =
      .ok [⟨"q.txt", none, some "", none, some 0⟩,
        ⟨"b.txt", none, some "q q q", none, some 3⟩] ∧
      specOrdered [⟨"q.txt", none, some "", none, some 0⟩,
        ⟨"b.txt", none, some "q q q", none, some 3⟩] = false :=
  ⟨rfl, rfl⟩

/-- Claim C1 (amended): the final comparator orders a pair ascending by
score only when both scores are truthy (nonzero), descending by match count
only when both counts are truthy, and returns 0 for every other pair — in
particular for every scored-vs-count-only pair and every pair involving a
zero score or zero count — so such pairs keep their pre-sort relative order;
consequently, when every entry of the left block has a falsy match count and
every entry of the right block has a falsy score (as with the aggregator's
fixed local-then-files concatenation), the stable sort sorts the blocks
independently and never moves a count-only entry ahead of a scored one. -/
theorem cmpAdvanced_order_semantics :
    (∀ a b : SearchResult, truthyQ a.score = true → truthyQ b.score = true →
      cmpAdvanced a b = a.score.getD 0 - b.score.getD 0) ∧
      (∀ a b : SearchResult, ¬(truthyQ a.score = true ∧ truthyQ b.score = true) →
        truthyN a.matchCount = true → truthyN b.matchCount = true →
        cmpAdvanced a b = (b.matchCount.getD 0 : ℚ) - (a.matchCount.getD 0 : ℚ)) ∧
      (∀ a b : SearchResult, ¬(truthyQ a.score = true ∧ truthyQ b.score = true) →
        ¬(truthyN a.matchCount = true ∧ truthyN b.matchCount = true) →
        cmpAdvanced a b = 0) ∧
      (∀ S F : List SearchResult,
        (∀ s ∈ S, truthyN s.matchCount = false) →
        (∀ f ∈ F, truthyQ f.score = false) →
        sortQ cmpAdvanced (S ++ F) =
          sortQ cmpAdvanced S ++ sortQ cmpAdvanced F) := by
  refine ⟨?_, ?_, ?_, ?_⟩
  · intro a b h1 h2
    simp [cmpAdvanced, h1, h2]
  · intro a b h hm1 hm2
    cases hA : truthyQ a.score <;> cases hB : truthyQ b.score <;>
      simp_all [cmpAdvanced]
  · intro a b h hm
    cases hA : truthyQ a.score <;> cases hB : truthyQ b.score <;>
      cases hMA : truthyN a.matchCount <;> cases hMB : truthyN b.matchCount <;>
        simp_all [cmpAdvanced]
  · intro S F hS hF
    apply sortQ_append_classes
    intro s hsm f hfm
    unfold cmpAdvanced
    rw [hS s hsm, hF f hfm]
    simp

/-- Witness for the amended C1: a scored entry and a count-only entry
compare equal, and the two blocks are sorted independently. -/
theorem cmpAdvanced_order_semantics_witness :
    cmpAdvanced ⟨"a", none, none, some 1, none⟩
        ⟨"b", none, none, none, some 5⟩ = 0 ∧
      sortQ cmpAdvanced ([⟨"a", none, none, some 1, none⟩] ++
          [⟨"b", none, none, none, some 5⟩]) =
        sortQ cmpAdvanced [⟨"a", none, none, some 1, none⟩] ++
          sortQ cmpAdvanced [⟨"b", none, none, none, some 5⟩] :=
  ⟨cmpAdvanced_order_semantics.2.2.1 _ _ (by decide) (by decide),
    cmpAdvanced_order_semantics.2.2.2 [⟨"a", none, none, some 1, none⟩]
      [⟨"b", none, none, none, some 5⟩]
      (by intro s hs; simp at hs; subst hs; rfl)
      (by intro f hf; simp at hf; subst hf; rfl)⟩

/-! ## Claim C6 — threshold monotonicity of the fuzzy local search -/

theorem sortQ_filter_threshold (t1 t2 : ℚ) (h12 : t1 ≤ t2)
    (L : List (α × ℚ)) :
    sortQ cmpScore (L.filter fun x => decide (x.2 ≤ t1)) ++
        sortQ cmpScore (L.filter fun x => decide (t1 < x.2 ∧ x.2 ≤ t2)) =
      sortQ cmpScore (L.filter fun x => decide (x.2 ≤ t2)) := by
  induction L with
  | nil => rfl
  | cons a L ih =>
    by_cases h1 : a.2 ≤ t1
    · have h2 : a.2 ≤ t2 := le_trans h1 h12
      have hn : ¬(t1 < a.2 ∧ a.2 ≤ t2) := fun hc => absurd h1 (not_le.mpr hc.1)
      rw [List.filter_cons, List.filter_cons, List.filter_cons,
        if_pos (decide_eq_true h1), if_pos (decide_eq_true h2),
        if_neg (fun hh => hn (of_decide_eq_true hh)),
        sortQ_cons, sortQ_cons, ← ih]
      refine (insortQ_append_of_le cmpScore a _ _ ?_).symm
      intro y hy
      have hyL := (mem_sortQ cmpScore _ y).mp hy
      have := (List.mem_filter.mp hyL).2
      have hlt : t1 < y.2 := (of_decide_eq_true this).1
      have : a.2 ≤ y.2 := le_of_lt (lt_of_le_of_lt h1 hlt)
      unfold cmpScore
      linarith
    · by_cases h2 : a.2 ≤ t2
      · have hb : t1 < a.2 ∧ a.2 ≤ t2 := ⟨not_le.mp h1, h2⟩
        rw [List.filter_cons, List.filter_cons, List.filter_cons,
          if_neg (fun hh => h1 (of_decide_eq_true hh)),
          if_pos (decide_eq_true hb), if_pos (decide_eq_true h2),
          sortQ_cons, sortQ_cons, ← ih]
        refine (insortQ_append_of_gt cmpScore a _ _ ?_).symm
        intro y hy
        have hyL := (mem_sortQ cmpScore _ y).mp hy
        have hyt : y.2 ≤ t1 := of_decide_eq_true (List.mem_filter.mp hyL).2
        have hlt : y.2 < a.2 := lt_of_le_of_lt hyt (not_le.mp h1)
        unfold cmpScore
        intro hc
        have := sub_nonpos.mp hc
        linarith
      · have hn : ¬(t1 < a.2 ∧ a.2 ≤ t2) := fun hc => h2 hc.2
        rw [List.filter_cons, List.filter_cons, List.filter_cons,
          if_neg (fun hh => h1 (of_decide_eq_true hh)),
          if_neg (fun hh => hn (of_decide_eq_true hh)),
          if_neg (fun hh => h2 (of_decide_eq_true hh))]
        exact ih

/-- Claim C6: raising the threshold never removes a result — for thresholds
`t1 ≤ t2`, every result of the fuzzy local search at `t1` is also a result
at `t2` (including the effect of the `slice(0, limit)` truncation: results
added at `t2` have strictly larger scores and sort after all `t1`-results). -/
theorem searchLocalFuzzy_threshold_monotone (score : α → Option ℚ)
    (t1 t2 : ℚ) (limit : ℕ) (corpus : List α) (h12 : t1 ≤ t2) (x : α × ℚ)
    (hx : x ∈ searchLocalFuzzy score t1 limit corpus) :
    x ∈ searchLocalFuzzy score t2 limit corpus := by
  unfold searchLocalFuzzy at hx ⊢
  rw [← sortQ_filter_threshold t1 t2 h12 (scoredList score corpus),
    List.take_append_eq_append_take]
  exact List.mem_append_left _ hx

/-- Witness for C6: the record scored 0 kept at threshold 0 is still
returned at threshold 1. -/
theorem searchLocalFuzzy_threshold_monotone_witness :
    ((0 : ℕ), (0 : ℚ)) ∈
      searchLocalFuzzy (fun n : ℕ => some (n : ℚ)) 1 5 [0, 1] :=
  searchLocalFuzzy_threshold_monotone (fun n : ℕ => some (n : ℚ)) 0 1 5 [0, 1]
    (by norm_num) (0, 0) (by decide)

/-! ## Claim C10 — suggestions are titles of matching records -/

/-- Claim C10: every suggestion is the title of a stored record whose
title, content or tags contain the query; at most 5 are returned; and a
suggestion's title need not itself contain the query — a record can qualify
through its content alone, as the concrete run shows. -/
theorem suggestionsOnlySearch_sound :
    (∀ (q : String) (db : List DBRecord),
      (suggestionsOnlySearch q db).length ≤ 5) ∧
      (∀ (q : String) (db : List DBRecord) (t : String),
        t ∈ suggestionsOnlySearch q db →
        ∃ r ∈ db, r.title = t ∧ fuzzyWhere q r = true) ∧
      (suggestionsOnlySearch "xyz" [⟨"Hinweis", "inhalt xyz", "[]", 0⟩] =
          ["Hinweis"] ∧
        containsCI "Hinweis" "xyz" = false) := by
  refine ⟨?_, ?_, by constructor <;> rfl⟩
  · intro q db
    unfold suggestionsOnlySearch searchDataInDB
    rw [List.length_map]
    exact List.length_take_le _ _
  · intro q db t ht
    obtain ⟨r, hr, rfl⟩ := List.mem_map.mp ht
    have h1 : r ∈ sortQ (cmpDB q) (db.filter (fuzzyWhere q)) :=
      List.take_subset _ _ hr
    have h2 : r ∈ db.filter (fuzzyWhere q) := (mem_sortQ _ _ _).mp h1
    have h3 := List.mem_filter.mp h2
    exact ⟨r, h3.1, rfl, h3.2⟩

/-- Witness for C10: the record matching only through its content is
reported under its (non-matching) title. -/
theorem suggestionsOnlySearch_sound_witness :
    ∃ r ∈ [(⟨"Hinweis", "inhalt xyz", "[]", 0⟩ : DBRecord)],
      DBRecord.title r = "Hinweis" ∧ fuzzyWhere "xyz" r = true :=
  suggestionsOnlySearch_sound.2.1 "xyz" _ "Hinweis" (by decide)

/-! ## Claim C3 — rate limiter window/block/reset cycle -/

theorem consume_fresh (cfg : TierConfig) (t0 : ℕ) (h : 1 ≤ cfg.points) :
    consume cfg t0 none = (.allowed (cfg.points - 1), ⟨1, t0, none⟩) := by
  simp [consume, consumeOpen, h]

theorem consume_inWindow (cfg : TierConfig) (t0 t k : ℕ)
    (hw : ¬ t0 + cfg.duration ≤ t) (hk : k + 1 ≤ cfg.points) :
    consume cfg t (some ⟨k, t0, none⟩) =
      (.allowed (cfg.points - (k + 1)), ⟨k + 1, t0, none⟩) := by
  simp [consume, consumeOpen, hw, hk]

theorem consume_overflow (cfg : TierConfig) (t0 t : ℕ)
    (hw : ¬ t0 + cfg.duration ≤ t) :
    consume cfg t (some ⟨cfg.points, t0, none⟩) =
      (.rejected cfg.blockDuration,
        ⟨cfg.points + 1, t0, some (t + cfg.blockDuration)⟩) := by
  have h : ¬ cfg.points + 1 ≤ cfg.points := by omega
  simp [consume, consumeOpen, hw, h]

theorem consume_after_block (cfg : TierConfig) (t0 b tn c0 : ℕ)
    (hw : t0 + cfg.duration ≤ tn) (hb : b ≤ tn) (hp : 1 ≤ cfg.points) :
    consume cfg tn (some ⟨c0, t0, some b⟩) =
      (.allowed (cfg.points - 1), ⟨1, tn, some b⟩) := by
  simp [consume, consumeOpen, hw, Nat.not_lt.mpr hb, hp]

theorem consumeMany_append (cfg : TierConfig) (st : Option LimState)
    (l1 l2 : List ℕ) :
    consumeMany cfg st (l1 ++ l2) =
      ((consumeMany cfg st l1).1 ++
          (consumeMany cfg (consumeMany cfg st l1).2 l2).1,
        (consumeMany cfg (consumeMany cfg st l1).2 l2).2) := by
  induction l1 generalizing st with
  | nil => simp [consumeMany]
  | cons t ts ih => simp [consumeMany, ih]

theorem allowedRun_succ (cfg : TierConfig) (k n : ℕ) :
    allowedRun cfg k (n + 1) =
      ConsumeResult.allowed (cfg.points - (k + 1)) :: allowedRun cfg (k + 1) n := by
  unfold allowedRun
  rw [List.range_succ_eq_map, List.map_cons, List.map_map]
  refine congrArg₂ _ (by norm_num) (List.map_congr_left ?_)
  intro i _
  simp only [Function.comp_apply]
  congr 1
  omega

theorem consumeMany_allowed (cfg : TierConfig) (t0 : ℕ) (ts : List ℕ) (k : ℕ)
    (hw : ∀ t ∈ ts, ¬ t0 + cfg.duration ≤ t) (hk : k + ts.length ≤ cfg.points) :
    consumeMany cfg (some ⟨k, t0, none⟩) ts =
      (allowedRun cfg k ts.length, some ⟨k + ts.length, t0, none⟩) := by
  induction ts generalizing k with
  | nil => simp [consumeMany, allowedRun]
  | cons t ts ih =>
    have hwt := hw t (by simp)
    have hk1 : k + 1 ≤ cfg.points := by
      simp only [List.length_cons] at hk
      omega
    have hk2 : (k + 1) + ts.length ≤ cfg.points := by
      simp only [List.length_cons] at hk
      omega
    simp only [consumeMany]
    rw [consume_inWindow cfg t0 t k hwt hk1,
      ih (k + 1) (fun z hz => hw z (by simp [hz])) hk2,
      List.length_cons, allowedRun_succ,
      show k + 1 + ts.length = k + (ts.length + 1) from by omega]

theorem limiter_cycle (cfg : TierConfig) (hp : 1 ≤ cfg.points)
    (hwb : cfg.duration ≤ cfg.blockDuration)
    (t0 : ℕ) (rest : List ℕ) (tr tn : ℕ)
    (hlen : rest.length = cfg.points - 1)
    (hrest : ∀ t ∈ rest, ¬ t0 + cfg.duration ≤ t)
    (htr0 : t0 ≤ tr) (htr : ¬ t0 + cfg.duration ≤ tr)
    (htn : tr + cfg.blockDuration ≤ tn) :
    consumeMany cfg none (t0 :: (rest ++ [tr])) =
        (allowedRun cfg 0 cfg.points ++ [ConsumeResult.rejected cfg.blockDuration],
          some ⟨cfg.points + 1, t0, some (tr + cfg.blockDuration)⟩) ∧
      consume cfg tn (some ⟨cfg.points + 1, t0, some (tr + cfg.blockDuration)⟩) =
        (.allowed (cfg.points - 1), ⟨1, tn, some (tr + cfg.blockDuration)⟩) := by
  constructor
  · have h1n : 1 + rest.length ≤ cfg.points := by omega
    have hrun : allowedRun cfg 0 cfg.points =
        ConsumeResult.allowed (cfg.points - 1) :: allowedRun cfg 1 rest.length := by
      conv_lhs => rw [show cfg.points = rest.length + 1 from by omega]
      rw [allowedRun_succ]
    have e2 : consumeMany cfg (some ⟨cfg.points, t0, none⟩) [tr] =
        ([ConsumeResult.rejected cfg.blockDuration],
          some ⟨cfg.points + 1, t0, some (tr + cfg.blockDuration)⟩) := by
      have e3 : consumeMany cfg (some ⟨cfg.points, t0, none⟩) [tr] =
          ((consume cfg tr (some ⟨cfg.points, t0, none⟩)).1 ::
              (consumeMany cfg
                (some (consume cfg tr (some ⟨cfg.points, t0, none⟩)).2) []).1,
            (consumeMany cfg
              (some (consume cfg tr (some ⟨cfg.points, t0, none⟩)).2) []).2) := rfl
      rw [e3, consume_overflow cfg t0 tr htr]
      rfl
    have e0 : consumeMany cfg none (t0 :: (rest ++ [tr])) =
        ((consume cfg t0 none).1 ::
            (consumeMany cfg (some (consume cfg t0 none).2) (rest ++ [tr])).1,
          (consumeMany cfg (some (consume cfg t0 none).2) (rest ++ [tr])).2) := rfl
    rw [e0, consume_fresh cfg t0 hp]
    dsimp only
    rw [consumeMany_append, consumeMany_allowed cfg t0 rest 1 hrest h1n]
    dsimp only
    rw [show (1 : ℕ) + rest.length = cfg.points from by omega, e2, hrun,
      List.cons_append]
  · refine consume_after_block cfg t0 (tr + cfg.blockDuration) tn _ ?_ htn hp
    omega

/-- Claim C3: for every tier (capacity `C`, window `W`, block `B`) and a
fresh key, `C` consumptions within one window all return `Allowed` (with
decreasing `remaining`), the `(C+1)`-th within that window returns
`Rejected` with `retryAfter = B`, and a consumption `B` after the rejecting
call succeeds again with the consumed counter reset to 1. -/
theorem rateLimiter_window_cycle (tier : Tier) (t0 : ℕ) (rest : List ℕ)
    (tr tn : ℕ) (hlen : rest.length = (tierConfig tier).points - 1)
    (hrest : ∀ t ∈ rest, ¬ t0 + (tierConfig tier).duration ≤ t)
    (htr0 : t0 ≤ tr) (htr : ¬ t0 + (tierConfig tier).duration ≤ tr)
    (htn : tr + (tierConfig tier).blockDuration ≤ tn) :
    consumeMany (tierConfig tier) none (t0 :: (rest ++ [tr])) =
        (allowedRun (tierConfig tier) 0 (tierConfig tier).points ++
            [ConsumeResult.rejected (tierConfig tier).blockDuration],
          some ⟨(tierConfig tier).points + 1, t0,
            some (tr + (tierConfig tier).blockDuration)⟩) ∧
      consume (tierConfig tier) tn
          (some ⟨(tierConfig tier).points + 1, t0,
            some (tr + (tierConfig tier).blockDuration)⟩) =
        (.allowed ((tierConfig tier).points - 1),
          ⟨1, tn, some (tr + (tierConfig tier).blockDuration)⟩) := by
  have hp : 1 ≤ (tierConfig tier).points := by cases tier <;> decide
  have hwb : (tierConfig tier).duration ≤ (tierConfig tier).blockDuration := by
    cases tier <;> decide
  exact limiter_cycle (tierConfig tier) hp hwb t0 rest tr tn hlen hrest htr0 htr htn

/-- Witness for C3, the concrete scenario of the spec: 31 `Consume` calls on
the Search tier within 10 seconds — 30 allowed, the 31st rejected with
`retryAfter = 120`, and a call 120 seconds after the rejection allowed again
with `consumed = 1`. -/
theorem rateLimiter_window_cycle_witness :
    consumeMany (tierConfig .search) none (0 :: (List.replicate 29 5 ++ [9])) =
        (allowedRun (tierConfig .search) 0 30 ++ [ConsumeResult.rejected 120],
          some ⟨31, 0, some 129⟩) ∧
      consume (tierConfig .search) 129 (some ⟨31, 0, some 129⟩) =
        (.allowed 29, ⟨1, 129, some 129⟩) :=
  rateLimiter_window_cycle .search 0 (List.replicate 29 5) 9 129
    (by decide) (by decide) (by decide) (by decide) (by decide)

end Srh
